/-
Verification of the Finemg analytics core against its specification.

Shallow embedding of:
  * analytics/targets.py       (compute_target, compute_net_gain, compute_breakeven)
  * analytics/confidence.py    (compute_confidence)
  * analytics/recommender.py   (_safe_normalize, compute_scores row loop)
  * analytics/backtester.py    (run_backtest)

Conventions of the embedding:
  * Python floats are modelled as exact rationals (ℚ); quantities that the
    source derives through `numpy`/`pandas` square roots (standard deviations)
    are modelled in ℝ with `Real.sqrt`.
  * `round(x, n)` (Python's round-half-to-even) is modelled by `roundTo n`.
  * Fallible code paths (Python exceptions such as ZeroDivisionError,
    KeyError, IndexError) are modelled with `Option`: `none` means the Python
    code raised (or, where the source wraps the body in try/except, that the
    item was skipped).
  * Trading dates are modelled as natural-number day keys; ISO `YYYY-MM-DD`
    strings compare in the same order as their day numbers, so sorting by the
    string date column is modelled as sorting by the ℕ key.
-/
import Mathlib

/-! ### Round-half-to-even (Python `round`) -/

section Rounding

variable {α : Type*} [LinearOrderedField α] [FloorRing α]
  [DecidableRel ((· < ·) : α → α → Prop)]

/-- Python's `round` to an integer: round half to even (banker's rounding). -/
def rndHE (x : α) : ℤ :=
  if x - ⌊x⌋ < 1/2 then ⌊x⌋
  else if (1:α)/2 < x - ⌊x⌋ then ⌊x⌋ + 1
  else if ⌊x⌋ % 2 = 0 then ⌊x⌋ else ⌊x⌋ + 1

/-- Python's `round(x, p)`: round to `p` decimal places, half to even. -/
def roundTo (p : ℕ) (x : α) : α := (rndHE (x * 10 ^ p) : α) / 10 ^ p

end Rounding

/-! ### analytics/targets.py -/

/-- Fee mode selector, source argument `fee_mode : str` with values
`"flat"` and `"pct"` (any other string behaves as `"pct"`, line 29-34). -/
inductive FeeMode
  | flat
  | pct
deriving DecidableEq, Repr

/-- Buy-leg fee, `targets.py` lines 29-33. -/
def fee_buy (inv flatFee pctFee : ℚ) : FeeMode → ℚ
  | .flat => flatFee
  | .pct => inv * pctFee

/-- Sell-leg fee, `targets.py` lines 29-34 (pct mode charges on the
post-gain notional). -/
def fee_sell (inv g flatFee pctFee : ℚ) : FeeMode → ℚ
  | .flat => flatFee
  | .pct => inv * (1 + g) * pctFee

/-- The pre-rounding target price of `compute_target` (lines 36-43):
`qty = (investment_amt - fee_buy) / entry_price`,
`total_out = investment_amt*(1+g) + fee_sell`,
`target = total_out/qty if qty > 0 else entry_price*(1+g)`.
Only meaningful for `entry ≠ 0` (see `compute_target`). -/
def target_price_raw (entry inv g flatFee pctFee : ℚ) (mode : FeeMode) : ℚ :=
  let qty := (inv - fee_buy inv flatFee pctFee mode) / entry
  let total_out := inv * (1 + g) + fee_sell inv g flatFee pctFee mode
  if 0 < qty then total_out / qty else entry * (1 + g)

/-- Model of `compute_target` (`targets.py` lines 6-45).  The division
`(investment_amt - fee_buy) / entry_price` on line 37 raises
`ZeroDivisionError` in Python when `entry_price == 0`; that is modelled by
returning `none`.  Otherwise the result is the raw target rounded to 4
decimals (line 45). -/
def compute_target (entry inv g flatFee pctFee : ℚ) (mode : FeeMode) : Option ℚ :=
  if entry = 0 then none
  else some (roundTo 4 (target_price_raw entry inv g flatFee pctFee mode))

/-- Model of `compute_net_gain` (`targets.py` lines 48-62): gross P&L minus both-leg
fees, rounded to 2 decimals.  Contains no division, hence total. -/
def compute_net_gain (entry exitP qty flatFee pctFee : ℚ) (mode : FeeMode) : ℚ :=
  let gross := (exitP - entry) * qty
  let fees :=
    match mode with
    | .flat => 2 * flatFee
    | .pct => entry * qty * pctFee + exitP * qty * pctFee
  roundTo 2 (gross - fees)

/-- Model of `compute_breakeven` (`targets.py` lines 65-72).  Divides by
`investment_amt`, raising `ZeroDivisionError` (modelled `none`) when it is
zero. -/
def compute_breakeven (inv flatFee pctFee : ℚ) (mode : FeeMode) : Option ℚ :=
  let totalFees :=
    match mode with
    | .flat => 2 * flatFee
    | .pct => inv * pctFee * 2
  if inv = 0 then none else some (roundTo 2 (totalFees / inv * 100))

/-! ### analytics/confidence.py -/

/-- Model of `pd.Series.pct_change().dropna()`: the list of successive relative
changes `c[i]/c[i-1] - 1`.  Faithful to pandas for series of nonzero
values (pandas produces `inf`/`NaN` on zero predecessors, which the model's
domain excludes; see the positivity hypotheses of the theorems). -/
def pct_change (l : List ℚ) : List ℚ :=
  (l.zip l.tail).map (fun ab => ab.2 / ab.1 - 1)

/-- Python `l[-w:]` (`.iloc[-w:]`) on a list: the trailing `w` elements,
except that `l[-0:]` is the whole list. -/
def ilocLast (w : ℕ) (l : List ℚ) : List ℚ :=
  if w = 0 then l else l.drop (l.length - w)

/-- Mean of a list of rationals, as a real number. -/
noncomputable def listMeanR (l : List ℚ) : ℝ :=
  (l.map (fun x => (x : ℝ))).sum / l.length

/-- Model of `pd.Series.std()` (sample standard deviation, `ddof=1`).  pandas yields
`NaN` on lists of length ≤ 1 (0/0); the model returns `0` there, matching
the explicit `else 0.0` guards at every call site of the source
(`recommender.py` line 80) and unreachable from `compute_confidence` for
`window ≥ 2`. -/
noncomputable def sampleStd (l : List ℚ) : ℝ :=
  if l.length ≤ 1 then 0
  else Real.sqrt ((l.map (fun x => ((x : ℝ) - listMeanR l) ^ 2)).sum / ((l.length : ℝ) - 1))

/-- Model of the `annual_vol` of `compute_confidence` (`confidence.py` line 29-30):
sample std of the trailing `window` daily returns, annualized by `√252`,
in percent. -/
noncomputable def annual_vol (close : List ℚ) (window : ℕ) : ℝ :=
  sampleStd (ilocLast window (pct_change close)) * Real.sqrt 252 * 100

/-- Model of `compute_confidence` (`confidence.py` lines 9-33): neutral `50.0` on
fewer than `window + 1` observations, otherwise
`round(max(0, 100 - annual_vol * 2), 1)`. -/
noncomputable def compute_confidence (close : List ℚ) (window : ℕ) : ℝ :=
  if close.length < window + 1 then 50
  else roundTo 1 (max 0 (100 - annual_vol close window * 2))

/-! ### analytics/recommender.py -/

/-- Model of `s.max()` on a pandas Series: `none` on an empty series. -/
def sMax {α : Type*} [LinearOrder α] : List α → Option α
  | [] => none
  | x :: r => some (r.foldl max x)

/-- Model of `s.min()` on a pandas Series: `none` on an empty series. -/
def sMin {α : Type*} [LinearOrder α] : List α → Option α
  | [] => none
  | x :: r => some (r.foldl min x)

/-- Model of `_safe_normalize` (`recommender.py` lines 19-32).  A column entry
`none` models a `NaN` (a value `pd.to_numeric(..., errors="coerce")`
coerced away); `s = series.dropna()`; empty or zero-range `s` maps every
entry to `0.5`; otherwise min-max normalization with `fillna(0.5)`.
(The `pd.isna(rng)` disjunct of line 27 cannot fire once `s` is nonempty
and NaN-free, and the blanket `except` of line 31 has nothing left to
catch in the typed model.) -/
def safe_normalize {α : Type*} [LinearOrderedField α]
    [DecidableRel ((· < ·) : α → α → Prop)] [DecidableEq α]
    (series : List (Option α)) : List α :=
  let s := series.filterMap id
  match sMax s, sMin s with
  | some mx, some mn =>
    let rng := mx - mn
    if rng = 0 then series.map (fun _ => 1/2)
    else series.map (fun o =>
      match o with
      | none => 1/2
      | some v => (v - mn) / rng)
  | _, _ => series.map (fun _ => 1/2)

/-- A pandas DataFrame as used by the scorer: a date index plus optional
`Close` and `Volume` columns aligned with the index (`none` at the column
level = the column is absent; `none` in an entry = `NaN`). -/
structure PdFrame where
  index : List ℕ
  close? : Option (List (Option ℚ))
  volume? : Option (List (Option ℚ))
deriving DecidableEq, Repr

/-- Model of `pd.to_numeric(col, errors="coerce").dropna()` on a date-indexed
column: keep the (date, value) pairs whose value is present. -/
def dropnaCol (index : List ℕ) (col : List (Option ℚ)) : List (ℕ × ℚ) :=
  (index.zip col).filterMap (fun dv => dv.2.map (fun v => (dv.1, v)))

/-- Model of `close.resample("W").last()` given a calendar function `week` mapping a
day key to its week: the last value of each maximal run of same-week days
(the index is date-sorted, so calendar weeks are contiguous runs). -/
def resampleWLast (week : ℕ → ℕ) : List (ℕ × ℚ) → List ℚ
  | [] => []
  | [dv] => [dv.2]
  | dv :: dw :: rest =>
    if week dv.1 = week dw.1 then resampleWLast week (dw :: rest)
    else dv.2 :: resampleWLast week (dw :: rest)

/-- Model of `.mean()` on a pandas Series (call sites guarantee nonemptiness). -/
def listMeanQ (l : List ℚ) : ℚ := if l.length = 0 then 0 else l.sum / l.length

/-- Python float division: `ZeroDivisionError` modelled as `none` (the
recommender's per-ticker `except` then skips the instrument). -/
def safeDiv (a b : ℚ) : Option ℚ := if b = 0 then none else some (a / b)

/-- One output row of the scorer loop (`recommender.py` lines 95-107).
Fields that the source computes through floating `sqrt` (`stability`,
`confidence`) are reals; the rest are exact rationals cast to ℝ. -/
structure Row where
  ticker : String
  name : String
  sector : String
  price : ℝ
  ret12m : ℝ
  mom3m : ℝ
  stability : ℝ
  liquidity : ℝ
  confidence : ℝ
  target : ℝ
  grossPct : ℝ

/-- The per-instrument body of the `compute_scores` loop
(`recommender.py` lines 50-109): `none` means the instrument is skipped,
either by an explicit `continue` (too little data, no `Close` column) or
because the blanket `except Exception` swallowed a `ZeroDivisionError` /
`IndexError` raised in the body. -/
noncomputable def scoreRow (cacFrame : PdFrame) (week : ℕ → ℕ)
    (investment grossTargetPct fee : ℚ)
    (metaName metaSector : String → Option String)
    (ticker : String) (df : PdFrame) : Option Row :=
  -- `if df is None or df.empty or len(df) < 60: continue`
  if df.index.length < 60 then none
  else
    match df.close? with
    | none => none            -- `if "Close" not in df.columns: continue`
    | some closeCol =>
      let close := dropnaCol df.index closeCol
      let vol : List (ℕ × ℚ) :=
        match df.volume? with
        | some volCol => dropnaCol df.index volCol
        | none => []          -- `pd.Series(dtype=float)`
      if close.length < 60 then none
      else
        match close.getLast?, close.head? with
        | some lastC, some firstC =>
          match safeDiv lastC.2 firstC.2 with
          | none => none
          | some r1 =>
            let ret12m := r1 - 1
            -- `if not cac.empty and "Close" in cac.columns`
            let cacRet? : Option ℚ :=
              match cacFrame.close? with
              | some cc =>
                if cacFrame.index = [] then some 0
                else
                  let cacClose := dropnaCol cacFrame.index cc
                  match cacClose.getLast?, cacClose.head? with
                  | some cl, some cf => (safeDiv cl.2 cf.2).map (fun r => r - 1)
                  | _, _ => none   -- IndexError on empty cac close → skip
              | none => some 0
            match cacRet? with
            | none => none
            | some cacRet =>
              let relativeRet := ret12m - cacRet
              let idx3 := close.length - 63   -- `max(0, len(close) - 63)`
              match close[idx3]? with
              | none => none
              | some base3 =>
                match safeDiv lastC.2 base3.2 with
                | none => none
                | some rm =>
                  let mom3m := rm - 1
                  let weeklyRets := pct_change (resampleWLast week close)
                  let last4 := if 4 ≤ weeklyRets.length then ilocLast 4 weeklyRets
                               else weeklyRets
                  let wkStd : ℝ := if 1 < last4.length then sampleStd last4 else 0
                  let stability : ℝ := if 0 < wkStd then 1 / (1 + wkStd) else 1
                  let priceVol : ℚ :=
                    if 0 < vol.length then
                      let common := close.filter (fun q => vol.any (fun r => r.1 == q.1))
                      if 0 < common.length then
                        listMeanQ (ilocLast 20 (common.map (fun q =>
                          q.2 * (((vol.find? (fun r => r.1 == q.1)).map Prod.snd).getD 0))))
                      else 0
                    else 0
                  let conf := compute_confidence (close.map Prod.snd) 20
                  match compute_target lastC.2 investment grossTargetPct fee (1/200) .flat with
                  | none => none   -- ZeroDivisionError on a zero price → skip
                  | some tgt =>
                    some {
                      ticker := ticker
                      name := (metaName ticker).getD ticker
                      sector := (metaSector ticker).getD "—"
                      price := ((roundTo 2 lastC.2 : ℚ) : ℝ)
                      ret12m := ((roundTo 2 (relativeRet * 100) : ℚ) : ℝ)
                      mom3m := ((roundTo 2 (mom3m * 100) : ℚ) : ℝ)
                      stability := roundTo 4 stability
                      liquidity := ((priceVol : ℚ) : ℝ)
                      confidence := conf
                      target := ((roundTo 2 tgt : ℚ) : ℝ)
                      grossPct := ((roundTo 2 (grossTargetPct * 100) : ℚ) : ℝ) }
        | _, _ => none

/-- The `rows` list built by `compute_scores` (`recommender.py` lines
49-109): every instrument whose `scoreRow` succeeds, in universe order. -/
noncomputable def compute_rows (cacFrame : PdFrame) (week : ℕ → ℕ)
    (investment grossTargetPct fee : ℚ)
    (metaName metaSector : String → Option String)
    (data : List (String × PdFrame)) : List Row :=
  data.filterMap (fun td =>
    scoreRow cacFrame week investment grossTargetPct fee metaName metaSector td.1 td.2)

/-- A row of the scored DataFrame with its composite score. -/
structure ScoredRow where
  row : Row
  score : ℝ

open Classical in
/-- Stable descending insertion by score, modelling
`df.sort_values("score", ascending=False)` (`recommender.py` line 134). -/
noncomputable def insertScoreDesc (x : ScoredRow) : List ScoredRow → List ScoredRow
  | [] => [x]
  | y :: r => if x.score ≤ y.score then y :: insertScoreDesc x r else x :: y :: r

noncomputable def sortScoresDesc (l : List ScoredRow) : List ScoredRow :=
  l.foldr insertScoreDesc []

/-- Model of `compute_scores` (`recommender.py` lines 36-137): row loop, min-max
normalization of the four factor columns, weighted composite rounded to 1
decimal, descending sort, top 5. -/
noncomputable def compute_scores (cacFrame : PdFrame) (week : ℕ → ℕ)
    (investment grossTargetPct fee : ℚ)
    (metaName metaSector : String → Option String)
    (data : List (String × PdFrame)) : List ScoredRow :=
  let rows := compute_rows cacFrame week investment grossTargetPct fee metaName metaSector data
  if rows.isEmpty then []
  else
    let nr := safe_normalize (α := ℝ) (rows.map (fun r => some r.ret12m))
    let nm := safe_normalize (α := ℝ) (rows.map (fun r => some r.mom3m))
    let ns := safe_normalize (α := ℝ) (rows.map (fun r => some r.stability))
    let nl := safe_normalize (α := ℝ) (rows.map (fun r => some r.liquidity))
    let scored := ((((rows.zip nr).zip nm).zip ns).zip nl).map (fun x =>
      { row := x.1.1.1.1
        score := roundTo 1 (((35:ℝ)/100 * x.1.1.1.2 + (30:ℝ)/100 * x.1.1.2
                  + (20:ℝ)/100 * x.1.2 + (15:ℝ)/100 * x.2) * 100) })
    (sortScoresDesc scored).take 5

/-! ### analytics/backtester.py -/

/-- One ticker's close series (`closes[t] = df["Close"].dropna()`,
`backtester.py` lines 40-43): date-sorted, unique-keyed `(date, close)`
pairs. -/
structure TSeries where
  tk : String
  pts : List (ℕ × ℚ)
deriving DecidableEq, Repr

/-- Insertion into an ascending list of day keys. -/
def insertNat (d : ℕ) : List ℕ → List ℕ
  | [] => [d]
  | e :: r => if e ≤ d then e :: insertNat d r else d :: e :: r

/-- Model of `sorted(...)` on day keys. -/
def sortNat (l : List ℕ) : List ℕ := l.foldr insertNat []

/-- Model of `sorted(set.intersection(*[set(s.index) for s in closes.values()]))`
(`backtester.py` line 49). -/
def commonDates : List TSeries → List ℕ
  | [] => []
  | s :: rest =>
    sortNat (((s.pts.map Prod.fst).dedup).filter
      (fun d => rest.all (fun t => (t.pts.map Prod.fst).contains d)))

/-- Python `range(0, stop, step)` for `step ≥ 1` (on a possibly clamped
natural `stop`; a non-positive Python stop and the clamped 0 both give the
empty range). -/
def pyRange (stop step : ℕ) : List ℕ :=
  (List.range ((stop + step - 1) / step)).map (· * step)

/-- Model of `range(0, len(dates) - interval_days, interval_days)`
(`backtester.py` line 61). -/
def cycleStarts (n interval : ℕ) : List ℕ := pyRange (n - interval) interval

/-- Model of `price_series.loc[d]` on a unique date index: `none` models the
`KeyError` that the per-trade `except` absorbs. -/
def locAt (pts : List (ℕ × ℚ)) (d : ℕ) : Option ℚ :=
  (pts.find? (fun p => p.1 == d)).map Prod.snd

/-- Model of `price_series.loc[a:b]`: an inclusive label slice on a date-sorted
index. -/
def locSlice (pts : List (ℕ × ℚ)) (a b : ℕ) : List (ℕ × ℚ) :=
  pts.filter (fun p => decide (a ≤ p.1) && decide (p.1 ≤ b))

/-- The `if p >= target_px: … break` scan (`backtester.py` lines 77-83):
the first cycle close that meets or exceeds the target. -/
def firstHit (targetPx : ℚ) : List (ℕ × ℚ) → Option (ℕ × ℚ)
  | [] => none
  | p :: r => if targetPx ≤ p.2 then some p else firstHit targetPx r

/-- Outcome tag: `"Objectif atteint ✅"` / `"Arrêté"`. -/
inductive Outcome
  | objectifAtteint
  | arrete
deriving DecidableEq, Repr

/-- One row of the backtest trade log (`backtester.py` lines 96-105). -/
structure TradeRec where
  dateAchat : ℕ
  dateVente : ℕ
  ticker : String
  prixAchat : ℚ
  prixCible : ℚ
  prixVente : ℚ
  pnlNet : ℚ
  resultat : Outcome
deriving DecidableEq, Repr

/-- The per-cycle, per-ticker trade simulation (`backtester.py` lines
63-110).  `none` models `continue`: a non-positive buy price, or a
`KeyError`/`IndexError` absorbed by the `except` on line 109.  Note that
the backtest leaves `compute_target`'s and `compute_net_gain`'s `pct_fee`
at its default `0.005` (lines 72, 93) and always uses `flat_fee` for the
share count (line 73), whatever the fee mode. -/
def simTrade (dates : List ℕ) (interval ci : ℕ) (inv g flatFee : ℚ)
    (mode : FeeMode) (ts : TSeries) : Option TradeRec :=
  match dates[ci]?, dates[min (ci + interval - 1) (dates.length - 1)]? with
  | some buyDate, some sellDate =>
    match locAt ts.pts buyDate with
    | none => none
    | some buyPrice =>
      if buyPrice ≤ 0 then none
      else
        match compute_target buyPrice inv g flatFee (1/200) mode with
        | none => none      -- unreachable: buyPrice > 0
        | some targetPx =>
          let qty := (inv - flatFee) / buyPrice
          let cyclePrices := locSlice ts.pts buyDate sellDate
          match firstHit targetPx cyclePrices with
          | some hit =>
            let pnl := compute_net_gain buyPrice hit.2 qty flatFee (1/200) mode
            some ⟨buyDate, hit.1, ts.tk, roundTo 2 buyPrice, roundTo 2 targetPx,
                  roundTo 2 hit.2, pnl, .objectifAtteint⟩
          | none =>
            match locAt ts.pts sellDate with
            | none => none
            | some sellPx =>
              let pnl := compute_net_gain buyPrice sellPx qty flatFee (1/200) mode
              some ⟨buyDate, sellDate, ts.tk, roundTo 2 buyPrice, roundTo 2 targetPx,
                    roundTo 2 sellPx, pnl, .arrete⟩
  | _, _ => none

/-- All simulated trades, cycle-major then universe order
(`backtester.py` lines 63-110). -/
def runTrades (closes : List TSeries) (dates : List ℕ) (interval : ℕ)
    (inv g flatFee : ℚ) (mode : FeeMode) : List TradeRec :=
  ((cycleStarts dates.length interval).map (fun ci =>
    closes.filterMap (simTrade dates interval ci inv g flatFee mode))).flatten

/-- The equity points in append order (`backtester.py` lines 57, 94, 107):
running cumulative P&L, rounded to 2 decimals, keyed by exit date. -/
def equityPoints (trades : List TradeRec) : List (ℕ × ℚ) :=
  (trades.foldl
    (fun (acc : ℚ × List (ℕ × ℚ)) tr =>
      let c := acc.1 + tr.pnlNet
      (c, acc.2 ++ [(tr.dateVente, roundTo 2 c)]))
    (0, [])).2

/-- Insertion by date key. -/
def insertPt (p : ℕ × ℚ) : List (ℕ × ℚ) → List (ℕ × ℚ)
  | [] => [p]
  | q :: r => if q.1 ≤ p.1 then q :: insertPt p r else p :: q :: r

/-- Model of `equity_df.sort_values("date")` (`backtester.py` line 116); ISO date
strings sort like their day keys. -/
def sortByDate (l : List (ℕ × ℚ)) : List (ℕ × ℚ) := l.foldr insertPt []

/-- The error results of `run_backtest`, by message:
`aucuneDonnee` = "Aucune donnée disponible pour le backtest.",
`insuffisantes` = "Données insuffisantes.",
`pasAssez n` = "Pas assez de données (seulement n jours communs).",
`aucuneTransaction` = "Aucune transaction simulée.". -/
inductive BTError
  | aucuneDonnee
  | insuffisantes
  | pasAssez (n : ℕ)
  | aucuneTransaction
deriving DecidableEq, Repr

/-- The summary block (`backtester.py` lines 118-129). -/
structure BTSummary where
  pnlTotal : ℚ
  nbTransactions : ℕ
  tauxReussite : ℚ
  meilleur : ℚ
  pire : ℚ
  moyen : ℚ
deriving DecidableEq, Repr

/-- Model of `trades_df[...].max()` on a nonempty column. -/
def listMaxQ : List ℚ → ℚ
  | [] => 0
  | x :: r => r.foldl max x

def listMinQ : List ℚ → ℚ
  | [] => 0
  | x :: r => r.foldl min x

def mkSummary (trades : List TradeRec) (cumulativePnl : ℚ) : BTSummary :=
  let pnls := trades.map (fun tr => tr.pnlNet)
  let wins := (pnls.filter (fun p => decide (0 < p))).length
  let total := trades.length
  { pnlTotal := roundTo 2 cumulativePnl
    nbTransactions := total
    tauxReussite := if 0 < total then roundTo 1 ((wins : ℚ) / total * 100) else 0
    meilleur := roundTo 2 (listMaxQ pnls)
    pire := roundTo 2 (listMinQ pnls)
    moyen := roundTo 2 (listMeanQ pnls) }

/-- The backtest result: a typed error or
`(trades_df, equity_curve, summary)`. -/
inductive BTResult
  | error (e : BTError)
  | ok (trades : List TradeRec) (equity : List (ℕ × ℚ)) (summary : BTSummary)
deriving DecidableEq, Repr

/-- Model of `run_backtest` (`backtester.py` lines 13-135) downstream of the data
fetch: `closes` is the per-ticker close-series dict (insertion order) and
`cutoff` the day key of `now - lookback_days`; the `"Aucune donnée"`
branch belongs to the unfetched boundary and the `"Données
insuffisantes."` branch fires on an empty `closes`. -/
def run_backtest (closes : List TSeries) (cutoff : ℕ) (inv g flatFee : ℚ)
    (mode : FeeMode) (interval : ℕ) : BTResult :=
  if closes.isEmpty then .error .insuffisantes
  else
    let dates := (commonDates closes).filter (fun d => decide (cutoff ≤ d))
    if dates.length < interval then .error (.pasAssez dates.length)
    else
      let trades := runTrades closes dates interval inv g flatFee mode
      if trades.isEmpty then .error .aucuneTransaction
      else
        .ok trades (sortByDate (equityPoints trades))
          (mkSummary trades (trades.map (fun tr => tr.pnlNet)).sum)

/-- Projection used to state properties of successful backtest results. -/
def btTrades : BTResult → List TradeRec
  | .ok t _ _ => t
  | .error _ => []

/-- Projection used to state properties of successful backtest results. -/
def btEquity : BTResult → List (ℕ × ℚ)
  | .ok _ e _ => e
  | .error _ => []

def btIsOk : BTResult → Bool
  | .ok _ _ _ => true
  | .error _ => false

/-! ## Theorems

### Properties of the rounding model -/

section RoundingLemmas

variable {α : Type*} [LinearOrderedField α] [FloorRing α]
  [DecidableRel ((· < ·) : α → α → Prop)]

theorem rndHE_eq_floor_or_ceil (x : α) : rndHE x = ⌊x⌋ ∨ rndHE x = ⌊x⌋ + 1 := by
  unfold rndHE
  split_ifs <;> simp

theorem abs_rndHE_sub (x : α) : |(rndHE x : α) - x| ≤ 1/2 := by
  have h0 : (⌊x⌋ : α) ≤ x := Int.floor_le x
  have h1 : x < ⌊x⌋ + 1 := Int.lt_floor_add_one x
  unfold rndHE
  split_ifs with ha hb hc <;> rw [abs_le] <;> push_cast <;>
    refine ⟨by linarith, by linarith⟩

theorem rndHE_mono {x y : α} (hxy : x ≤ y) : rndHE x ≤ rndHE y := by
  have hf : ⌊x⌋ ≤ ⌊y⌋ := Int.floor_le_floor hxy
  rcases lt_or_eq_of_le hf with hlt | heq
  · have h1 : rndHE x ≤ ⌊x⌋ + 1 := by
      rcases rndHE_eq_floor_or_ceil x with h | h <;> omega
    have h2 : ⌊y⌋ ≤ rndHE y := by
      rcases rndHE_eq_floor_or_ceil y with h | h <;> omega
    omega
  · unfold rndHE
    rw [← heq]
    split_ifs <;> try omega
    all_goals linarith

theorem rndHE_intCast (n : ℤ) : rndHE (n : α) = n := by
  unfold rndHE
  rw [Int.floor_intCast, sub_self]
  norm_num

theorem abs_roundTo_sub (p : ℕ) (x : α) :
    |roundTo p x - x| ≤ 1 / (2 * 10 ^ p) := by
  have hp : (0:α) < 10 ^ p := by positivity
  have hdif : roundTo p x - x = ((rndHE (x * 10 ^ p) : α) - x * 10 ^ p) / 10 ^ p := by
    field_simp [roundTo]
    ring
  rw [hdif, abs_div, abs_of_pos hp]
  rw [div_le_div_iff₀ hp (by positivity)]
  have h := abs_rndHE_sub (x * 10 ^ p)
  calc |(rndHE (x * 10 ^ p) : α) - x * 10 ^ p| * (2 * 10 ^ p)
      ≤ (1/2) * (2 * 10 ^ p) := by
        apply mul_le_mul_of_nonneg_right h (by positivity)
    _ = 1 * 10 ^ p := by ring

theorem roundTo_mono (p : ℕ) {x y : α} (hxy : x ≤ y) :
    roundTo p x ≤ roundTo p y := by
  have hp : (0:α) < 10 ^ p := by positivity
  unfold roundTo
  have h : ((rndHE (x * 10 ^ p) : ℤ) : α) ≤ ((rndHE (y * 10 ^ p) : ℤ) : α) := by
    exact_mod_cast rndHE_mono (mul_le_mul_of_nonneg_right hxy (le_of_lt hp))
  gcongr

theorem roundTo_le_add (p : ℕ) (x : α) : x - 1 / (2 * 10 ^ p) ≤ roundTo p x := by
  have h := abs_roundTo_sub p x
  rw [abs_le] at h
  linarith [h.1]

/-- Evaluation: when the fractional part is below one half, `rndHE` rounds
down to `m`. -/
theorem rndHE_eq_down (x : α) (m : ℤ) (h1 : (m:α) ≤ x) (h2 : x - m < 1/2) :
    rndHE x = m := by
  have hf : ⌊x⌋ = m := Int.floor_eq_iff.mpr ⟨h1, by linarith [h2]⟩
  unfold rndHE
  rw [hf, if_pos (by linarith)]

/-- Evaluation: when the fractional part is above one half, `rndHE` rounds
up to `m`. -/
theorem rndHE_eq_up (x : α) (m : ℤ) (h1 : (m:α) - 1/2 < x) (h2 : x < m) :
    rndHE x = m := by
  have hf : ⌊x⌋ = m - 1 :=
    Int.floor_eq_iff.mpr ⟨by push_cast; linarith, by push_cast; linarith⟩
  unfold rndHE
  rw [hf]
  rw [if_neg (by push_cast; linarith), if_pos (by push_cast; linarith)]
  omega

theorem roundTo_eq_down (p : ℕ) (x : α) (m : ℤ)
    (h1 : (m:α) ≤ x * 10 ^ p) (h2 : x * 10 ^ p - m < 1/2) :
    roundTo p x = (m : α) / 10 ^ p := by
  rw [roundTo, rndHE_eq_down _ m h1 h2]

theorem roundTo_eq_up (p : ℕ) (x : α) (m : ℤ)
    (h1 : (m:α) - 1/2 < x * 10 ^ p) (h2 : x * 10 ^ p < m) :
    roundTo p x = (m : α) / 10 ^ p := by
  rw [roundTo, rndHE_eq_up _ m h1 h2]

/-- The map `roundTo p` fixes any value that is an exact multiple of `10^-p`. -/
theorem roundTo_eq_self (p : ℕ) (x : α) (m : ℤ) (h : x * 10 ^ p = (m : α)) :
    roundTo p x = x := by
  have hp : (0:α) < 10 ^ p := by positivity
  rw [roundTo, h, rndHE_intCast, ← h]
  field_simp
end RoundingLemmas

/-! ### Claims about the Target Pricer -/

/-- C1, counterexample: `compute_target` with `entry_price = 0` does not
fall back — the share-count division `(investment_amt - fee_buy) /
entry_price` on line 37 raises `ZeroDivisionError` before the fallback
guard is ever reached, so the function does not return a value. -/
theorem compute_target_zero_entry_raises :
    compute_target 0 100 (9/200) (199/100) (1/200) .flat = none := by
  simp [compute_target]

/-- C1, amended: shares purchased are `(investment_amount − buy_fee) /
entry_price` and whenever that share count is zero or negative (with a
*nonzero* entry price) the function returns the fallback
`entry_price * (1 + gross_target_pct)`; `compute_target` never raises a
division-by-zero error for nonzero entry prices, but at `entry_price = 0`
the share-count division itself raises. -/
theorem compute_target_total_iff_nonzero_entry (entry inv g flatFee pctFee : ℚ)
    (mode : FeeMode) (he : entry ≠ 0) :
    (compute_target entry inv g flatFee pctFee mode).isSome = true ∧
    ((inv - fee_buy inv flatFee pctFee mode) / entry ≤ 0 →
      compute_target entry inv g flatFee pctFee mode
        = some (roundTo 4 (entry * (1 + g)))) ∧
    compute_target 0 inv g flatFee pctFee mode = none := by
  refine ⟨?_, ?_, ?_⟩
  · rw [compute_target, if_neg he]
    rfl
  · intro hq
    rw [compute_target, if_neg he]
    simp only [target_price_raw]
    rw [if_neg (not_lt.mpr hq)]
  · rw [compute_target, if_pos rfl]

/-- Witness for the amended C1 at the concrete entry price −1 (share count
negative, fallback taken) and at 0 (raises). -/
theorem compute_target_total_iff_nonzero_entry_witness :
    ((-1:ℚ) ≠ 0) ∧
    compute_target (-1) 100 (9/200) (199/100) (1/200) .flat
      = some (roundTo 4 ((-1) * (1 + 9/200))) ∧
    compute_target 0 100 (9/200) (199/100) (1/200) .flat = none := by
  have h := compute_target_total_iff_nonzero_entry (-1) 100 (9/200) (199/100)
    (1/200) .flat (by norm_num)
  exact ⟨by norm_num, h.2.1 (by norm_num [fee_buy]), h.2.2⟩

/-- C2, counterexample: on the spec's scenario (entry 100, investment 100,
gross target 4.5 %, flat fee 1.99 on both legs) `compute_target` returns
108.6522, which is 0.5522 away from the claimed ≈ 108.10. -/
theorem compute_target_scenario_not_108_10 :
    compute_target 100 100 (9/200) (199/100) (1/200) .flat = some (543261/5000) ∧
    ¬ |(543261/5000 : ℚ) - 1081/10| < 1/2 := by
  constructor
  · rw [compute_target, if_neg (by norm_num)]
    simp only [target_price_raw, fee_buy, fee_sell]
    norm_num
    rw [roundTo_eq_up 4 _ 1086522 (by norm_num) (by norm_num)]
    norm_num
  · rw [not_lt, le_abs]
    left
    norm_num

/-- C2, amended: with entry 100, investment 100, gross target 4.5 % and a
flat 1.99 fee on both legs, shares = (100−1.99)/100 = 0.9801 and the
returned target is `round((100·1.045 + 1.99)/0.9801, 4) = 108.6522`
(≈ 108.65, not ≈ 108.10). -/
theorem compute_target_scenario :
    (100 - 199/100) / 100 = (9801/10000 : ℚ) ∧
    compute_target 100 100 (9/200) (199/100) (1/200) .flat
      = some (roundTo 4 ((100 * (1 + 9/200) + 199/100) / ((100 - 199/100) / 100))) ∧
    compute_target 100 100 (9/200) (199/100) (1/200) .flat = some (543261/5000) := by
  refine ⟨by norm_num, ?_, ?_⟩
  · rw [compute_target, if_neg (by norm_num)]
    simp only [target_price_raw, fee_buy, fee_sell]
    rw [if_pos (by norm_num)]
  · rw [compute_target, if_neg (by norm_num)]
    simp only [target_price_raw, fee_buy, fee_sell]
    norm_num
    rw [roundTo_eq_up 4 _ 1086522 (by norm_num) (by norm_num)]
    norm_num

/-- C3, counterexample: the breakeven round trip is not ≈ 0.  At entry 100,
investment 100, flat fee 1.99, `compute_breakeven` returns 3.98 (percent).
Feeding it back into `compute_target` as a fraction (3.98/100 = 0.0398)
and selling the `qty = (100−1.99)/100 = 0.9801` shares at that target
yields a net P&L of **+3.98** (= 2·flat_fee), and feeding the raw
percentage value 3.98 in yields +398.00 — in neither reading ≈ 0. -/
theorem breakeven_roundtrip_not_zero :
    compute_breakeven 100 (199/100) (1/200) .flat = some (199/50) ∧
    compute_target 100 100 (199/50/100) (199/100) (1/200) .flat = some (67576/625) ∧
    compute_net_gain 100 (67576/625) (9801/10000) (199/100) (1/200) .flat = 199/50 ∧
    ¬ |(199/50 : ℚ)| < 1/10 ∧
    compute_target 100 100 (199/50) (199/100) (1/200) .flat = some (2550709/5000) ∧
    compute_net_gain 100 (2550709/5000) (9801/10000) (199/100) (1/200) .flat = 398 ∧
    ¬ |(398 : ℚ)| < 1/10 := by
  refine ⟨?_, ?_, ?_, ?_, ?_, ?_, ?_⟩
  · rw [compute_breakeven, if_neg (by norm_num)]
    norm_num
    rw [roundTo_eq_down 2 _ 398 (by norm_num) (by norm_num)]
    norm_num
  · rw [compute_target, if_neg (by norm_num)]
    simp only [target_price_raw, fee_buy, fee_sell]
    norm_num
    rw [roundTo_eq_down 4 _ 1081216 (by norm_num) (by norm_num)]
    norm_num
  · rw [compute_net_gain]
    norm_num
    rw [roundTo_eq_up 2 _ 398 (by norm_num) (by norm_num)]
    norm_num
  · rw [not_lt, le_abs]
    left
    norm_num
  · rw [compute_target, if_neg (by norm_num)]
    simp only [target_price_raw, fee_buy, fee_sell]
    norm_num
    rw [roundTo_eq_down 4 _ 5101418 (by norm_num) (by norm_num)]
    norm_num
  · rw [compute_net_gain]
    norm_num
    rw [roundTo_eq_up 2 _ 39800 (by norm_num) (by norm_num)]
    norm_num
  · rw [not_lt, le_abs]
    left
    norm_num

/-- C3, amended: in flat-fee mode, selling the `qty = (investment −
flat_fee)/entry` shares exactly at the computed target realises a net P&L
of approximately `investment × gross_target_pct` (within the 4- and
2-decimal roundings) — `compute_target` already compensates both fees, so
the round trip at the breakeven percentage yields ≈ `2·flat_fee`, not ≈ 0;
it is ≈ 0 precisely for a zero gross-target percentage. -/
theorem net_gain_at_target_approx (entry inv g flatFee pctFee t : ℚ)
    (he : entry ≠ 0) (hq : 0 < (inv - flatFee) / entry)
    (ht : compute_target entry inv g flatFee pctFee .flat = some t) :
    |compute_net_gain entry t ((inv - flatFee) / entry) flatFee pctFee .flat - inv * g|
      ≤ (inv - flatFee) / entry * (1 / 20000) + 1 / 200 := by
  set qty : ℚ := (inv - flatFee) / entry with hqty
  have hraw : target_price_raw entry inv g flatFee pctFee .flat
      = (inv * (1 + g) + flatFee) / qty := by
    simp only [target_price_raw, fee_buy, fee_sell]
    rw [if_pos hq]
  have htv : t = roundTo 4 ((inv * (1 + g) + flatFee) / qty) := by
    rw [compute_target, if_neg he, hraw] at ht
    exact (Option.some_injective _ ht).symm
  set raw : ℚ := (inv * (1 + g) + flatFee) / qty with hrawdef
  have hqne : qty ≠ 0 := ne_of_gt hq
  have hrawqty : raw * qty = inv * (1 + g) + flatFee := by
    rw [hrawdef]
    field_simp
  have hentryqty : entry * qty = inv - flatFee := by
    rw [hqty]
    field_simp
  -- the exact (pre-rounding) P&L at the raw target is inv * g
  have hexact : (raw - entry) * qty - 2 * flatFee = inv * g := by
    rw [sub_mul, hrawqty, hentryqty]
    ring
  have hnet : compute_net_gain entry t qty flatFee pctFee .flat
      = roundTo 2 ((t - entry) * qty - 2 * flatFee) := by
    rw [compute_net_gain]
  set y : ℚ := (t - entry) * qty - 2 * flatFee with hy
  have h1 : |compute_net_gain entry t qty flatFee pctFee .flat - y| ≤ 1 / 200 := by
    rw [hnet]
    have := abs_roundTo_sub 2 y
    calc |roundTo 2 y - y| ≤ 1 / (2 * 10 ^ 2) := this
      _ = 1 / 200 := by norm_num
  have h2 : |y - inv * g| ≤ qty * (1 / 20000) := by
    have : y - inv * g = (t - raw) * qty := by
      rw [hy, ← hexact]
      ring
    rw [this, abs_mul, abs_of_pos hq]
    have habs : |t - raw| ≤ 1 / 20000 := by
      rw [htv]
      have := abs_roundTo_sub 4 raw
      calc |roundTo 4 raw - raw| ≤ 1 / (2 * 10 ^ 4) := this
        _ = 1 / 20000 := by norm_num
    calc |t - raw| * qty ≤ (1 / 20000) * qty :=
          mul_le_mul_of_nonneg_right habs (le_of_lt hq)
      _ = qty * (1 / 20000) := by ring
  calc |compute_net_gain entry t qty flatFee pctFee .flat - inv * g|
      ≤ |compute_net_gain entry t qty flatFee pctFee .flat - y| + |y - inv * g| := by
        have := abs_sub_le (compute_net_gain entry t qty flatFee pctFee .flat) y (inv * g)
        exact this
    _ ≤ 1 / 200 + qty * (1 / 20000) := add_le_add h1 h2
    _ = qty * (1 / 20000) + 1 / 200 := by ring

/-- Witness for the amended C3 at the breakeven scenario: entry 100,
investment 100, flat fee 1.99, g = breakeven/100 = 0.0398; the net P&L
3.98 is indeed within the rounding bound of 100 × 0.0398. -/
theorem net_gain_at_target_approx_witness :
    ((100:ℚ) ≠ 0) ∧ (0 < ((100:ℚ) - 199/100) / 100) ∧
    |compute_net_gain 100 (67576/625) ((100 - 199/100) / 100) (199/100) (1/200) .flat
        - 100 * (199/50/100)|
      ≤ (100 - 199/100) / 100 * (1 / 20000) + 1 / 200 := by
  refine ⟨by norm_num, by norm_num, ?_⟩
  apply net_gain_at_target_approx 100 100 (199/50/100) (199/100) (1/200) (67576/625)
    (by norm_num) (by norm_num)
  rw [compute_target, if_neg (by norm_num)]
  simp only [target_price_raw, fee_buy, fee_sell]
  norm_num
  rw [roundTo_eq_down 4 _ 1081216 (by norm_num) (by norm_num)]
  norm_num

/-- C9: for fixed investment amount and fee structure, `compute_target` is
monotone (non-decreasing) in `gross_target_pct` — and strictly increasing
before the final 4-decimal rounding — and the pre-rounding target price
scales linearly with the entry price, so the target/entry ratio is
invariant under scaling the entry price alone (modulo that rounding). -/
theorem compute_target_monotone_and_scale (entry inv g g' flatFee pctFee k : ℚ)
    (mode : FeeMode) (he : 0 < entry) (hi : 0 ≤ inv) (hp : 0 ≤ pctFee) (hk : 0 < k) :
    (g ≤ g' → ∀ t t', compute_target entry inv g flatFee pctFee mode = some t →
      compute_target entry inv g' flatFee pctFee mode = some t' → t ≤ t') ∧
    (0 < inv → g < g' →
      target_price_raw entry inv g flatFee pctFee mode
        < target_price_raw entry inv g' flatFee pctFee mode) ∧
    target_price_raw (k * entry) inv g flatFee pctFee mode / (k * entry)
      = target_price_raw entry inv g flatFee pctFee mode / entry := by
  have he' : entry ≠ 0 := ne_of_gt he
  have hk' : k ≠ 0 := ne_of_gt hk
  refine ⟨?_, ?_, ?_⟩
  · intro hg t t' ht ht'
    rw [compute_target, if_neg he'] at ht ht'
    have hraw : target_price_raw entry inv g flatFee pctFee mode
        ≤ target_price_raw entry inv g' flatFee pctFee mode := by
      simp only [target_price_raw]
      by_cases hq : 0 < (inv - fee_buy inv flatFee pctFee mode) / entry
      · rw [if_pos hq, if_pos hq]
        have htot : inv * (1 + g) + fee_sell inv g flatFee pctFee mode
            ≤ inv * (1 + g') + fee_sell inv g' flatFee pctFee mode := by
          have h1 : 0 ≤ inv * (g' - g) := mul_nonneg hi (sub_nonneg.mpr hg)
          have h2 : 0 ≤ inv * (g' - g) * pctFee := mul_nonneg h1 hp
          cases mode <;> simp only [fee_sell] <;> nlinarith
        gcongr
      · rw [if_neg hq, if_neg hq]
        nlinarith
    have h4 := roundTo_mono 4 hraw
    rw [← Option.some_injective _ ht, ← Option.some_injective _ ht']
    exact h4
  · intro hinv hg
    simp only [target_price_raw]
    by_cases hq : 0 < (inv - fee_buy inv flatFee pctFee mode) / entry
    · rw [if_pos hq, if_pos hq]
      have htot : inv * (1 + g) + fee_sell inv g flatFee pctFee mode
          < inv * (1 + g') + fee_sell inv g' flatFee pctFee mode := by
        have h1 : 0 < inv * (g' - g) := mul_pos hinv (sub_pos.mpr hg)
        have h2 : 0 ≤ inv * (g' - g) * pctFee := mul_nonneg h1.le hp
        cases mode <;> simp only [fee_sell] <;> nlinarith
      gcongr
    · rw [if_neg hq, if_neg hq]
      nlinarith
  · simp only [target_price_raw]
    have hqeq : (inv - fee_buy inv flatFee pctFee mode) / (k * entry)
        = ((inv - fee_buy inv flatFee pctFee mode) / entry) / k := by
      rw [div_div]
      ring_nf
    by_cases hq : 0 < (inv - fee_buy inv flatFee pctFee mode) / entry
    · have hqk : 0 < (inv - fee_buy inv flatFee pctFee mode) / (k * entry) := by
        rw [hqeq]
        exact div_pos hq hk
      rw [if_pos hqk, if_pos hq]
      have hfb : inv - fee_buy inv flatFee pctFee mode ≠ 0 := by
        intro h0
        rw [h0, zero_div] at hq
        exact lt_irrefl 0 hq
      field_simp
      ring
    · have hqk : ¬ 0 < (inv - fee_buy inv flatFee pctFee mode) / (k * entry) := by
        rw [hqeq]
        intro hpos
        have hmul : 0 < (inv - fee_buy inv flatFee pctFee mode) / entry / k * k :=
          mul_pos hpos hk
        rw [div_mul_cancel₀ _ hk'] at hmul
        exact hq hmul
      rw [if_neg hqk, if_neg hq]
      field_simp

/-- Witness for C9 at entry 100, investment 100, flat fee 1.99, targets
3 % vs 4.5 %, scale factor 2: the rounded targets are ordered
(107.1217 ≤ 108.6522) and the raw target/entry ratio is scale
invariant. -/
theorem compute_target_monotone_and_scale_witness :
    ((0:ℚ) < 100) ∧ ((0:ℚ) ≤ 100) ∧ ((0:ℚ) ≤ 1/200) ∧ ((0:ℚ) < 2) ∧
    ((3/100 : ℚ) ≤ 9/200) ∧
    compute_target 100 100 (3/100) (199/100) (1/200) .flat = some (1071217/10000) ∧
    compute_target 100 100 (9/200) (199/100) (1/200) .flat = some (543261/5000) ∧
    ((1071217/10000 : ℚ) ≤ 543261/5000) ∧
    target_price_raw (2 * 100) 100 (3/100) (199/100) (1/200) .flat / (2 * 100)
      = target_price_raw 100 100 (3/100) (199/100) (1/200) .flat / 100 := by
  have h := compute_target_monotone_and_scale 100 100 (3/100) (9/200) (199/100)
    (1/200) 2 .flat (by norm_num) (by norm_num) (by norm_num) (by norm_num)
  have ht : compute_target 100 100 (3/100) (199/100) (1/200) .flat
      = some (1071217/10000) := by
    rw [compute_target, if_neg (by norm_num)]
    simp only [target_price_raw, fee_buy, fee_sell]
    norm_num
    rw [roundTo_eq_down 4 _ 1071217 (by norm_num) (by norm_num)]
    norm_num
  have ht' : compute_target 100 100 (9/200) (199/100) (1/200) .flat
      = some (543261/5000) := by
    rw [compute_target, if_neg (by norm_num)]
    simp only [target_price_raw, fee_buy, fee_sell]
    norm_num
    rw [roundTo_eq_up 4 _ 1086522 (by norm_num) (by norm_num)]
    norm_num
  exact ⟨by norm_num, by norm_num, by norm_num, by norm_num, by norm_num,
    ht, ht', h.1 (by norm_num) _ _ ht ht', h.2.2⟩

/-! ### Claims about the Confidence Estimator -/

section MoreRounding

variable {α : Type*} [LinearOrderedField α] [FloorRing α]
  [DecidableRel ((· < ·) : α → α → Prop)]

theorem roundTo_zero (p : ℕ) : roundTo p (0:α) = 0 := by
  have h : (0:α) * 10 ^ p = ((0:ℤ) : α) := by norm_num
  rw [roundTo, h, rndHE_intCast]
  norm_num

theorem roundTo_nonneg (p : ℕ) {x : α} (hx : 0 ≤ x) : 0 ≤ roundTo p x := by
  have := roundTo_mono p hx
  rwa [roundTo_zero] at this

theorem roundTo_one_hundred : roundTo 1 (100:α) = 100 := by
  apply roundTo_eq_self 1 (100:α) 1000
  norm_num

end MoreRounding

theorem sampleStd_nonneg (l : List ℚ) : 0 ≤ sampleStd l := by
  unfold sampleStd
  split_ifs with h
  · exact le_refl 0
  · exact Real.sqrt_nonneg _

theorem annual_vol_nonneg (close : List ℚ) (window : ℕ) :
    0 ≤ annual_vol close window := by
  unfold annual_vol
  have h1 := sampleStd_nonneg (ilocLast window (pct_change close))
  have h2 := Real.sqrt_nonneg (252 : ℝ)
  positivity

/-- C7: `compute_confidence` returns exactly 50 on fewer than `window + 1`
observations, always lands in [0, 100], and returns exactly 0 as soon as
the trailing annualized volatility is at least 50 %.  The hypotheses
`2 ≤ window` and positivity of the closes delimit the domain on which the
rational/real model is faithful to the pandas float pipeline (zero closes
would produce `inf`/`NaN` returns there, and `window ≤ 1` changes the
meaning of `.iloc[-window:]` and `.std()`). -/
theorem compute_confidence_props (close : List ℚ) (window : ℕ)
    (_hw : 2 ≤ window) (_hpos : ∀ c ∈ close, 0 < c) :
    (close.length < window + 1 → compute_confidence close window = 50) ∧
    (0 ≤ compute_confidence close window ∧ compute_confidence close window ≤ 100) ∧
    (window + 1 ≤ close.length → 50 ≤ annual_vol close window →
      compute_confidence close window = 0) := by
  refine ⟨?_, ?_, ?_⟩
  · intro h
    rw [compute_confidence, if_pos h]
  · by_cases h : close.length < window + 1
    · rw [compute_confidence, if_pos h]
      norm_num
    · rw [compute_confidence, if_neg h]
      have hv : 0 ≤ annual_vol close window := annual_vol_nonneg close window
      constructor
      · exact roundTo_nonneg 1 (le_max_left _ _)
      · have hle : max (0:ℝ) (100 - annual_vol close window * 2) ≤ 100 :=
          max_le (by norm_num) (by linarith)
        calc roundTo 1 (max (0:ℝ) (100 - annual_vol close window * 2))
            ≤ roundTo 1 (100:ℝ) := roundTo_mono 1 hle
          _ = 100 := roundTo_one_hundred
  · intro hlen hvol
    rw [compute_confidence, if_neg (not_lt.mpr hlen)]
    have hmax : max (0:ℝ) (100 - annual_vol close window * 2) = 0 :=
      max_eq_left (by linarith)
    rw [hmax, roundTo_zero]

/-- Witness for C7 on the 21-day constant series `[1, 1, …, 1]` with the
default window 20. -/
theorem compute_confidence_props_witness :
    ((2:ℕ) ≤ 20) ∧ (∀ c ∈ List.replicate 21 (1:ℚ), 0 < c) ∧
    (0 ≤ compute_confidence (List.replicate 21 (1:ℚ)) 20 ∧
      compute_confidence (List.replicate 21 (1:ℚ)) 20 ≤ 100) := by
  have hpos : ∀ c ∈ List.replicate 21 (1:ℚ), 0 < c := by
    intro c hc
    rw [List.eq_of_mem_replicate hc]
    norm_num
  exact ⟨by norm_num, hpos,
    (compute_confidence_props (List.replicate 21 (1:ℚ)) 20 (by norm_num) hpos).2.1⟩

/-! ### Claims about the Multi-Factor Scorer normalization -/

section FoldExtrema

variable {α : Type*} [LinearOrder α]

theorem foldl_max_spec (x : α) (l : List α) :
    x ≤ l.foldl max x ∧ ∀ y ∈ l, y ≤ l.foldl max x := by
  induction l generalizing x with
  | nil => exact ⟨le_refl x, by simp⟩
  | cons a r ih =>
    obtain ⟨h1, h2⟩ := ih (max x a)
    refine ⟨le_trans (le_max_left x a) h1, ?_⟩
    intro y hy
    rcases List.mem_cons.mp hy with rfl | hy'
    · exact le_trans (le_max_right x y) h1
    · exact h2 y hy'

theorem foldl_max_mem (x : α) (l : List α) :
    l.foldl max x = x ∨ l.foldl max x ∈ l := by
  induction l generalizing x with
  | nil => exact Or.inl rfl
  | cons a r ih =>
    rw [List.foldl_cons]
    rcases ih (max x a) with h | h
    · rcases max_choice x a with hm | hm
      · exact Or.inl (by rw [h, hm])
      · exact Or.inr (by rw [h, hm]; exact List.mem_cons_self a r)
    · exact Or.inr (List.mem_cons_of_mem a h)

theorem foldl_min_spec (x : α) (l : List α) :
    l.foldl min x ≤ x ∧ ∀ y ∈ l, l.foldl min x ≤ y := by
  induction l generalizing x with
  | nil => exact ⟨le_refl x, by simp⟩
  | cons a r ih =>
    obtain ⟨h1, h2⟩ := ih (min x a)
    refine ⟨le_trans h1 (min_le_left x a), ?_⟩
    intro y hy
    rcases List.mem_cons.mp hy with rfl | hy'
    · exact le_trans h1 (min_le_right x y)
    · exact h2 y hy'

theorem foldl_min_mem (x : α) (l : List α) :
    l.foldl min x = x ∨ l.foldl min x ∈ l := by
  induction l generalizing x with
  | nil => exact Or.inl rfl
  | cons a r ih =>
    rw [List.foldl_cons]
    rcases ih (min x a) with h | h
    · rcases min_choice x a with hm | hm
      · exact Or.inl (by rw [h, hm])
      · exact Or.inr (by rw [h, hm]; exact List.mem_cons_self a r)
    · exact Or.inr (List.mem_cons_of_mem a h)

theorem sMax_spec {l : List α} {m : α} (h : sMax l = some m) :
    m ∈ l ∧ ∀ x ∈ l, x ≤ m := by
  cases l with
  | nil => simp [sMax] at h
  | cons a r =>
    rw [sMax, Option.some_inj] at h
    subst h
    constructor
    · rcases foldl_max_mem a r with h | h
      · rw [h]; exact List.mem_cons_self a r
      · exact List.mem_cons_of_mem a h
    · intro x hx
      rcases List.mem_cons.mp hx with rfl | hx'
      · exact (foldl_max_spec x r).1
      · exact (foldl_max_spec a r).2 x hx'

theorem sMin_spec {l : List α} {m : α} (h : sMin l = some m) :
    m ∈ l ∧ ∀ x ∈ l, m ≤ x := by
  cases l with
  | nil => simp [sMin] at h
  | cons a r =>
    rw [sMin, Option.some_inj] at h
    subst h
    constructor
    · rcases foldl_min_mem a r with h | h
      · rw [h]; exact List.mem_cons_self a r
      · exact List.mem_cons_of_mem a h
    · intro x hx
      rcases List.mem_cons.mp hx with rfl | hx'
      · exact (foldl_min_spec x r).1
      · exact (foldl_min_spec a r).2 x hx'

end FoldExtrema

/-- C8: every value produced by `_safe_normalize` lies in [0, 1]; a column
whose present values all coincide (zero range), or whose cleaned series is
empty, normalizes to exactly 0.5 everywhere; and every `NaN` entry receives
exactly 0.5.  The function is total — no exception, no division by zero. -/
theorem safe_normalize_props (series : List (Option ℚ)) (c : ℚ) :
    (∀ x ∈ safe_normalize series, 0 ≤ x ∧ x ≤ 1) ∧
    ((∀ v ∈ series.filterMap id, v = c) →
      safe_normalize series = series.map (fun _ => 1/2)) ∧
    (∀ i : ℕ, series[i]? = some none → (safe_normalize series)[i]? = some (1/2)) := by
  have hmain : safe_normalize series = series.map (fun _ => (1:ℚ)/2) ∨
      ∃ mx mn : ℚ, (∀ x ∈ series.filterMap id, x ≤ mx) ∧
        (∀ x ∈ series.filterMap id, mn ≤ x) ∧ mx ∈ series.filterMap id ∧
        mn ∈ series.filterMap id ∧ mx - mn ≠ 0 ∧
        safe_normalize series = series.map (fun o =>
          match o with
          | none => (1:ℚ)/2
          | some v => (v - mn) / (mx - mn)) := by
    rcases hs : series.filterMap id with _ | ⟨a, r⟩
    · left
      simp only [safe_normalize, hs, sMax, sMin]
    · have hmx : sMax (series.filterMap id) = some (r.foldl max a) := by
        rw [hs, sMax]
      have hmn : sMin (series.filterMap id) = some (r.foldl min a) := by
        rw [hs, sMin]
      by_cases hrng : r.foldl max a - r.foldl min a = 0
      · left
        simp only [safe_normalize, hs, sMax, sMin]
        rw [if_pos hrng]
      · right
        have hmx' : sMax (a :: r) = some (r.foldl max a) := rfl
        have hmn' : sMin (a :: r) = some (r.foldl min a) := rfl
        refine ⟨r.foldl max a, r.foldl min a, (sMax_spec hmx').2, (sMin_spec hmn').2,
          (sMax_spec hmx').1, (sMin_spec hmn').1, hrng, ?_⟩
        simp only [safe_normalize, hs, sMax, sMin]
        rw [if_neg hrng]
        apply List.map_congr_left
        intro o _
        cases o <;> rfl
  refine ⟨?_, ?_, ?_⟩
  · intro x hx
    rcases hmain with heq | ⟨mx, mn, hle, hge, hmxm, hmnm, hrng, heq⟩
    · rw [heq] at hx
      obtain ⟨o, _, rfl⟩ := List.mem_map.mp hx
      norm_num
    · rw [heq] at hx
      obtain ⟨o, ho, rfl⟩ := List.mem_map.mp hx
      cases o with
      | none => norm_num
      | some v =>
        have hv : v ∈ series.filterMap id := List.mem_filterMap.mpr ⟨some v, ho, rfl⟩
        have h1 : mn ≤ v := hge v hv
        have h2 : v ≤ mx := hle v hv
        have h3 : mn ≤ mx := le_trans h1 h2
        have h4 : 0 < mx - mn := lt_of_le_of_ne (sub_nonneg.mpr h3) (Ne.symm hrng)
        constructor
        · exact div_nonneg (sub_nonneg.mpr h1) (le_of_lt h4)
        · rw [div_le_one h4]
          linarith
  · intro hconst
    rcases hmain with heq | ⟨mx, mn, _, _, hmxm, hmnm, hrng, _⟩
    · exact heq
    · exfalso
      apply hrng
      rw [hconst mx hmxm, hconst mn hmnm, sub_self]
  · intro i hi
    rcases hmain with heq | ⟨mx, mn, _, _, _, _, _, heq⟩ <;>
      rw [heq, List.getElem?_map, hi] <;> rfl

/-- Witness for C8 on the concrete columns `[1, NaN, 3]` (bounds) and
`[2, 2]` (zero range ⇒ all 0.5). -/
theorem safe_normalize_props_witness :
    (∀ x ∈ safe_normalize [some (1:ℚ), none, some 3], 0 ≤ x ∧ x ≤ 1) ∧
    (∀ v ∈ ([some (2:ℚ), some 2] : List (Option ℚ)).filterMap id, v = 2) ∧
    safe_normalize [some (2:ℚ), some 2]
      = ([some (2:ℚ), some 2] : List (Option ℚ)).map (fun _ => 1/2) := by
  have hconst : ∀ v ∈ ([some (2:ℚ), some 2] : List (Option ℚ)).filterMap id, v = 2 := by
    intro v hv
    simp only [List.filterMap_cons, id, List.filterMap_nil] at hv
    rcases List.mem_cons.mp hv with rfl | hv'
    · rfl
    · rcases List.mem_cons.mp hv' with rfl | hv''
      · rfl
      · exact absurd hv'' (List.not_mem_nil v)
  exact ⟨(safe_normalize_props [some 1, none, some 3] 0).1, hconst,
    (safe_normalize_props [some 2, some 2] 2).2.1 hconst⟩

/-! ### Claims about the scorer's treatment of missing volume data -/

theorem mem_of_getLast?_eq {β : Type*} {l : List β} {a : β}
    (h : l.getLast? = some a) : a ∈ l := by
  have hne : l ≠ [] := by
    intro h0
    rw [h0] at h
    simp at h
  rw [List.getLast?_eq_getLast_of_ne_nil hne, Option.some_inj] at h
  rw [← h]
  exact List.getLast_mem hne

theorem mem_of_head?_eq {β : Type*} {l : List β} {a : β}
    (h : l.head? = some a) : a ∈ l := by
  cases l with
  | nil => simp at h
  | cons b r =>
    rw [List.head?_cons, Option.some_inj] at h
    rw [← h]
    exact List.mem_cons_self b r

/-- C10: an instrument whose DataFrame has no `Volume` column is *not*
skipped by `compute_scores`: provided its (cleaned) close series has at
least 60 observations and well-defined returns (positive closes; here with
an empty benchmark frame), it contributes a row whose raw liquidity factor
is exactly 0, and thus stays in the pool that is normalized, ranked and
cut to the top 5. -/
theorem compute_rows_keeps_missing_volume
    (cacFrame : PdFrame) (week : ℕ → ℕ) (inv g fee : ℚ)
    (mName mSector : String → Option String)
    (t : String) (df : PdFrame) (data : List (String × PdFrame))
    (closeCol : List (Option ℚ))
    (hmem : (t, df) ∈ data)
    (hvol : df.volume? = none)
    (hclose : df.close? = some closeCol)
    (hlen : 60 ≤ df.index.length)
    (hclean : 60 ≤ (dropnaCol df.index closeCol).length)
    (hpos : ∀ q ∈ dropnaCol df.index closeCol, 0 < q.2)
    (hcac : cacFrame.index = []) :
    ∃ row ∈ compute_rows cacFrame week inv g fee mName mSector data,
      row.ticker = t ∧ row.liquidity = 0 := by
  set close := dropnaCol df.index closeCol with hclosedef
  have hne : close ≠ [] := by
    intro h0
    rw [h0] at hclean
    simp at hclean
  obtain ⟨lastC, hlast⟩ : ∃ a, close.getLast? = some a := by
    cases h : close.getLast? with
    | none => exact absurd (List.getLast?_eq_none_iff.mp h) hne
    | some a => exact ⟨a, rfl⟩
  obtain ⟨firstC, hfirst⟩ : ∃ a, close.head? = some a := by
    cases h : close.head? with
    | none => exact absurd (List.head?_eq_none_iff.mp h) hne
    | some a => exact ⟨a, rfl⟩
  have hplast : 0 < lastC.2 := hpos lastC (mem_of_getLast?_eq hlast)
  have hpfirst : 0 < firstC.2 := hpos firstC (mem_of_head?_eq hfirst)
  have hidx : close.length - 63 < close.length := by omega
  have hbase : close[close.length - 63]? = some close[close.length - 63] :=
    List.getElem?_eq_getElem hidx
  have hpbase : 0 < close[close.length - 63].2 :=
    hpos _ (List.getElem_mem hidx)
  have h60 : ¬ df.index.length < 60 := by omega
  have h60c : ¬ close.length < 60 := by omega
  have hrow : ∃ row, scoreRow cacFrame week inv g fee mName mSector t df = some row ∧
      row.ticker = t ∧ row.liquidity = 0 := by
    rw [scoreRow, if_neg h60, hclose]
    simp only [← hclosedef, hvol, hlast, hfirst, hbase]
    rw [if_neg h60c]
    simp only [safeDiv, hpfirst.ne', if_false, hpbase.ne', ite_false, hcac, ite_true,
      if_neg (hplast.ne')]
    rw [compute_target, if_neg hplast.ne']
    cases hcc : cacFrame.close? with
    | none =>
      refine ⟨_, rfl, rfl, ?_⟩
      norm_num
    | some cc =>
      refine ⟨_, rfl, rfl, ?_⟩
      norm_num
  obtain ⟨row, hsr, hticker, hliq⟩ := hrow
  exact ⟨row, List.mem_filterMap.mpr ⟨(t, df), hmem, hsr⟩, hticker, hliq⟩

/-- Witness for C10: a 60-day constant-price instrument with no Volume
column is scored, with liquidity factor 0. -/
theorem compute_rows_keeps_missing_volume_witness :
    (60 ≤ (dropnaCol (List.range 60) (List.replicate 60 (some (1:ℚ)))).length) ∧
    (∀ q ∈ dropnaCol (List.range 60) (List.replicate 60 (some (1:ℚ))), 0 < q.2) ∧
    ∃ row ∈ compute_rows ⟨[], none, none⟩ (fun d => d / 5) 100 (9/200) (199/100)
        (fun _ => none) (fun _ => none)
        [("T", ⟨List.range 60, some (List.replicate 60 (some (1:ℚ))), none⟩)],
      row.ticker = "T" ∧ row.liquidity = 0 := by
  have hclean : 60 ≤ (dropnaCol (List.range 60) (List.replicate 60 (some (1:ℚ)))).length := by
    decide
  have hpos : ∀ q ∈ dropnaCol (List.range 60) (List.replicate 60 (some (1:ℚ))), 0 < q.2 := by
    decide
  refine ⟨hclean, hpos, ?_⟩
  exact compute_rows_keeps_missing_volume ⟨[], none, none⟩ (fun d => d / 5) 100 (9/200)
    (199/100) (fun _ => none) (fun _ => none) "T"
    ⟨List.range 60, some (List.replicate 60 (some (1:ℚ))), none⟩ _
    (List.replicate 60 (some (1:ℚ)))
    (List.mem_singleton.mpr rfl) rfl rfl (by simp) hclean hpos rfl

/-! ### Claims about the Backtest Simulator -/

theorem pyRange_mem {stop step s : ℕ} (hstep : 1 ≤ step) :
    s ∈ pyRange stop step ↔ step ∣ s ∧ s < stop := by
  have hkey : ∀ k : ℕ, k < (stop + step - 1) / step ↔ k * step < stop := by
    intro k
    rw [Nat.lt_iff_add_one_le, Nat.le_div_iff_mul_le hstep, add_mul, one_mul]
    omega
  unfold pyRange
  rw [List.mem_map]
  constructor
  · rintro ⟨k, hk, rfl⟩
    rw [List.mem_range, hkey] at hk
    exact ⟨Dvd.intro_left k rfl, hk⟩
  · rintro ⟨⟨k, rfl⟩, hlt⟩
    refine ⟨k, ?_, (mul_comm k step).symm ▸ rfl⟩
    rw [List.mem_range, hkey, mul_comm]
    exact hlt

theorem cycleStarts_mem {n interval s : ℕ} (hint : 1 ≤ interval) :
    s ∈ cycleStarts n interval ↔ interval ∣ s ∧ s < n - interval :=
  pyRange_mem hint

/-- C4, amended: `run_backtest` errors when fewer common dates than
`interval_days` remain and when zero trades were simulated; the cycle
starts are exactly the multiples of `interval_days` strictly below
`len(dates) − interval_days`, every cycle has full length with its end two
or more positions before the last retained date (so the clamping `min`
never takes effect and the last retained date belongs to no cycle); a
first full cycle exists exactly when at least `interval_days + 1` common
dates remain — with exactly `interval_days` dates no cycle is formed and
the zero-trade error is returned instead. -/
theorem run_backtest_cycles (closes : List TSeries) (cutoff n interval : ℕ)
    (inv g flatFee : ℚ) (mode : FeeMode) (hint : 1 ≤ interval) :
    (closes ≠ [] →
      ((commonDates closes).filter (fun d => decide (cutoff ≤ d))).length < interval →
      run_backtest closes cutoff inv g flatFee mode interval
        = .error (.pasAssez ((commonDates closes).filter (fun d => decide (cutoff ≤ d))).length)) ∧
    (closes ≠ [] →
      ¬ ((commonDates closes).filter (fun d => decide (cutoff ≤ d))).length < interval →
      runTrades closes ((commonDates closes).filter (fun d => decide (cutoff ≤ d)))
        interval inv g flatFee mode = [] →
      run_backtest closes cutoff inv g flatFee mode interval
        = .error .aucuneTransaction) ∧
    (∀ s ∈ cycleStarts n interval, interval ∣ s ∧ s + (interval - 1) ≤ n - 2 ∧
      min (s + interval - 1) (n - 1) = s + interval - 1) ∧
    (interval + 1 ≤ n → 0 ∈ cycleStarts n interval) ∧
    (cycleStarts interval interval = []) := by
  have hne_empty : closes ≠ [] → closes.isEmpty = false := by
    intro h
    cases closes with
    | nil => exact absurd rfl h
    | cons a r => rfl
  refine ⟨?_, ?_, ?_, ?_, ?_⟩
  · intro hne hlen
    rw [run_backtest, hne_empty hne]
    simp only [Bool.false_eq_true, if_false]
    rw [if_pos hlen]
  · intro hne hlen htr
    rw [run_backtest, hne_empty hne]
    simp only [Bool.false_eq_true, if_false]
    rw [if_neg hlen, htr]
    rfl
  · intro s hs
    rw [cycleStarts_mem hint] at hs
    refine ⟨hs.1, by omega, by omega⟩
  · intro hn
    rw [cycleStarts_mem hint]
    exact ⟨Dvd.intro 0 rfl, by omega⟩
  · rw [List.eq_nil_iff_forall_not_mem]
    intro s hs
    rw [cycleStarts_mem hint] at hs
    omega

/-- C4, counterexample: with exactly `interval_days` common dates (here 2
dates, interval 2) the backtest forms *no* cycle — `range(0, len(dates) -
interval_days, interval_days)` is empty — and returns the zero-trade error
instead of simulating the one full cycle the claim promises; the retained
dates are covered by no cycle. -/
theorem run_backtest_no_cycle_at_exact_interval :
    ((commonDates [⟨"A", [(0, 10), (1, 10)]⟩]).filter
      (fun d => decide (0 ≤ d))).length = 2 ∧
    cycleStarts 2 2 = [] ∧
    run_backtest [⟨"A", [(0, 10), (1, 10)]⟩] 0 100 (9/200) (199/100) .flat 2
      = .error .aucuneTransaction := by
  refine ⟨by decide, by decide, ?_⟩
  rw [run_backtest]
  have h1 : (List.isEmpty [(⟨"A", [(0, 10), (1, 10)]⟩ : TSeries)]) = false := rfl
  rw [h1]
  simp only [Bool.false_eq_true, if_false]
  have h2 : ((commonDates [⟨"A", [(0, 10), (1, 10)]⟩]).filter
      (fun d => decide (0 ≤ d))) = [0, 1] := by decide
  rw [h2]
  have h3 : ¬ ([0, 1] : List ℕ).length < 2 := by decide
  rw [if_neg h3]
  have h4 : runTrades [⟨"A", [(0, 10), (1, 10)]⟩] [0, 1] 2 100 (9/200) (199/100) .flat
      = [] := by
    rw [runTrades]
    have h5 : cycleStarts ([0, 1] : List ℕ).length 2 = [] := by decide
    rw [h5]
    rfl
  rw [h4]
  rfl

/-- Witness for the amended C4: at 5 retained dates and interval 2 a first
cycle exists, its cycles are the multiples of 2 below 3, and the two
error branches fire on the concrete one-ticker universe. -/
theorem run_backtest_cycles_witness :
    (1 ≤ 2) ∧ (2 + 1 ≤ 5) ∧ (0 ∈ cycleStarts 5 2) ∧
    (2 ∣ 2 ∧ 2 + (2 - 1) ≤ 5 - 2 ∧ min (2 + 2 - 1) (5 - 1) = 2 + 2 - 1) ∧
    cycleStarts 2 2 = [] ∧
    run_backtest [⟨"A", [(0, 10), (1, 10)]⟩] 0 100 (9/200) (199/100) .flat 3
      = .error (.pasAssez 2) := by
  have h := run_backtest_cycles [⟨"A", [(0, 10), (1, 10)]⟩] 0 5 2
    100 (9/200) (199/100) .flat (by norm_num)
  have h3 := run_backtest_cycles [⟨"A", [(0, 10), (1, 10)]⟩] 0 5 3
    100 (9/200) (199/100) .flat (by norm_num)
  have hlen : ((commonDates [⟨"A", [(0, 10), (1, 10)]⟩]).filter
      (fun d => decide (0 ≤ d))).length = 2 := by decide
  refine ⟨by norm_num, by norm_num, h.2.2.2.1 (by norm_num), ?_, h.2.2.2.2, ?_⟩
  · have hm : 2 ∈ cycleStarts 5 2 := by decide
    have := h.2.2.1 2 hm
    exact this
  · have := h3.1 (by simp) (by rw [hlen]; norm_num)
    rwa [hlen] at this

theorem firstHit_eq_some {t : ℚ} {l : List (ℕ × ℚ)} {p : ℕ × ℚ}
    (h : firstHit t l = some p) :
    t ≤ p.2 ∧ ∃ pre post, l = pre ++ p :: post ∧ ∀ q ∈ pre, q.2 < t := by
  induction l with
  | nil => simp [firstHit] at h
  | cons a r ih =>
    rw [firstHit] at h
    split_ifs at h with ha
    · rw [Option.some_inj] at h
      subst h
      exact ⟨ha, [], r, rfl, by simp⟩
    · obtain ⟨h1, pre, post, heq, hpre⟩ := ih h
      refine ⟨h1, a :: pre, post, by rw [heq]; rfl, ?_⟩
      intro q hq
      rcases List.mem_cons.mp hq with rfl | hq'
      · exact lt_of_not_le ha
      · exact hpre q hq'

theorem firstHit_eq_none {t : ℚ} {l : List (ℕ × ℚ)}
    (h : firstHit t l = none) : ∀ q ∈ l, q.2 < t := by
  induction l with
  | nil => simp
  | cons a r ih =>
    rw [firstHit] at h
    split_ifs at h with ha
    intro q hq
    rcases List.mem_cons.mp hq with rfl | hq'
    · exact lt_of_not_le ha
    · exact ih h q hq'

theorem locAt_mem {pts : List (ℕ × ℚ)} {d : ℕ} {v : ℚ}
    (h : locAt pts d = some v) : (d, v) ∈ pts := by
  unfold locAt at h
  cases hf : pts.find? (fun p => p.1 == d) with
  | none => rw [hf] at h; simp at h
  | some p =>
    rw [hf] at h
    have hp := List.find?_some hf
    have hmem := List.mem_of_find?_eq_some hf
    rw [Option.map_some', Option.some_inj] at h
    have hpd : p.1 = d := eq_of_beq hp
    rw [← h, ← hpd]
    exact hmem

/-- Evaluation of `simTrade` in the target-hit branch. -/
theorem simTrade_eval_hit (dates : List ℕ) (interval ci : ℕ)
    (inv g flatFee : ℚ) (mode : FeeMode) (ts : TSeries)
    (buyDate sellDate : ℕ) (buyPrice targetPx : ℚ) (hit : ℕ × ℚ)
    (hbd : dates[ci]? = some buyDate)
    (hsd : dates[min (ci + interval - 1) (dates.length - 1)]? = some sellDate)
    (hbp : locAt ts.pts buyDate = some buyPrice)
    (hpos : 0 < buyPrice)
    (htp : compute_target buyPrice inv g flatFee (1/200) mode = some targetPx)
    (hhit : firstHit targetPx (locSlice ts.pts buyDate sellDate) = some hit) :
    simTrade dates interval ci inv g flatFee mode ts
      = some ⟨buyDate, hit.1, ts.tk, roundTo 2 buyPrice, roundTo 2 targetPx,
          roundTo 2 hit.2,
          compute_net_gain buyPrice hit.2 ((inv - flatFee) / buyPrice)
            flatFee (1/200) mode, .objectifAtteint⟩ := by
  simp only [simTrade, hbd, hsd, hbp, htp, hhit, if_neg (not_le.mpr hpos)]

/-- Evaluation of `simTrade` in the cycle-end branch. -/
theorem simTrade_eval_stop (dates : List ℕ) (interval ci : ℕ)
    (inv g flatFee : ℚ) (mode : FeeMode) (ts : TSeries)
    (buyDate sellDate : ℕ) (buyPrice targetPx sellPx : ℚ)
    (hbd : dates[ci]? = some buyDate)
    (hsd : dates[min (ci + interval - 1) (dates.length - 1)]? = some sellDate)
    (hbp : locAt ts.pts buyDate = some buyPrice)
    (hpos : 0 < buyPrice)
    (htp : compute_target buyPrice inv g flatFee (1/200) mode = some targetPx)
    (hnone : firstHit targetPx (locSlice ts.pts buyDate sellDate) = none)
    (hsp : locAt ts.pts sellDate = some sellPx) :
    simTrade dates interval ci inv g flatFee mode ts
      = some ⟨buyDate, sellDate, ts.tk, roundTo 2 buyPrice, roundTo 2 targetPx,
          roundTo 2 sellPx,
          compute_net_gain buyPrice sellPx ((inv - flatFee) / buyPrice)
            flatFee (1/200) mode, .arrete⟩ := by
  simp only [simTrade, hbd, hsd, hbp, htp, hnone, hsp, if_neg (not_le.mpr hpos)]

/-- C6: the backtest exit is first-touch.  Given the cycle bounds and entry
data, (i) if some close in the sliced cycle meets the target, the trade is
recorded as "Objectif atteint" exiting at the *first* such close — every
strictly earlier close of the cycle is strictly below the target; (ii)
otherwise the trade exits at the cycle's last common date as "Arrêté";
(iii) consequently on a flat price series (all closes equal to `c`) with a
whole-cent flat fee and a non-degenerate target margin, every simulated
trade exits at cycle end with net P&L exactly `−2·flat_fee`. -/
theorem simTrade_first_touch (dates : List ℕ) (interval ci : ℕ)
    (inv g flatFee : ℚ) (mode : FeeMode) (ts : TSeries)
    (buyDate sellDate : ℕ) (buyPrice targetPx : ℚ)
    (hbd : dates[ci]? = some buyDate)
    (hsd : dates[min (ci + interval - 1) (dates.length - 1)]? = some sellDate)
    (hbp : locAt ts.pts buyDate = some buyPrice)
    (hpos : 0 < buyPrice)
    (htp : compute_target buyPrice inv g flatFee (1/200) mode = some targetPx) :
    (∀ hit, firstHit targetPx (locSlice ts.pts buyDate sellDate) = some hit →
      simTrade dates interval ci inv g flatFee mode ts
          = some ⟨buyDate, hit.1, ts.tk, roundTo 2 buyPrice, roundTo 2 targetPx,
              roundTo 2 hit.2,
              compute_net_gain buyPrice hit.2 ((inv - flatFee) / buyPrice)
                flatFee (1/200) mode, .objectifAtteint⟩ ∧
        targetPx ≤ hit.2 ∧
        ∃ pre post, locSlice ts.pts buyDate sellDate = pre ++ hit :: post ∧
          ∀ q ∈ pre, q.2 < targetPx) ∧
    (firstHit targetPx (locSlice ts.pts buyDate sellDate) = none →
      (∀ q ∈ locSlice ts.pts buyDate sellDate, q.2 < targetPx) ∧
      ∀ sellPx, locAt ts.pts sellDate = some sellPx →
        simTrade dates interval ci inv g flatFee mode ts
          = some ⟨buyDate, sellDate, ts.tk, roundTo 2 buyPrice, roundTo 2 targetPx,
              roundTo 2 sellPx,
              compute_net_gain buyPrice sellPx ((inv - flatFee) / buyPrice)
                flatFee (1/200) mode, .arrete⟩) ∧
    (∀ c : ℚ, ∀ m : ℤ, mode = .flat → (∀ q ∈ ts.pts, q.2 = c) →
      flatFee = (m : ℚ) / 100 → flatFee < inv →
      1 / 20000 < c * (inv * g + 2 * flatFee) / (inv - flatFee) →
      ∀ sellPx, locAt ts.pts sellDate = some sellPx →
        simTrade dates interval ci inv g flatFee mode ts
          = some ⟨buyDate, sellDate, ts.tk, roundTo 2 buyPrice, roundTo 2 targetPx,
              roundTo 2 sellPx, -(2 * flatFee), .arrete⟩) := by
  have hi : ∀ hit, firstHit targetPx (locSlice ts.pts buyDate sellDate) = some hit →
      simTrade dates interval ci inv g flatFee mode ts
        = some ⟨buyDate, hit.1, ts.tk, roundTo 2 buyPrice, roundTo 2 targetPx,
            roundTo 2 hit.2,
            compute_net_gain buyPrice hit.2 ((inv - flatFee) / buyPrice)
              flatFee (1/200) mode, .objectifAtteint⟩ := by
    intro hit hhit
    exact simTrade_eval_hit dates interval ci inv g flatFee mode ts buyDate sellDate
      buyPrice targetPx hit hbd hsd hbp hpos htp hhit
  have hii : firstHit targetPx (locSlice ts.pts buyDate sellDate) = none →
      ∀ sellPx, locAt ts.pts sellDate = some sellPx →
        simTrade dates interval ci inv g flatFee mode ts
          = some ⟨buyDate, sellDate, ts.tk, roundTo 2 buyPrice, roundTo 2 targetPx,
              roundTo 2 sellPx,
              compute_net_gain buyPrice sellPx ((inv - flatFee) / buyPrice)
                flatFee (1/200) mode, .arrete⟩ := by
    intro hnone sellPx hsp
    exact simTrade_eval_stop dates interval ci inv g flatFee mode ts buyDate sellDate
      buyPrice targetPx sellPx hbd hsd hbp hpos htp hnone hsp
  refine ⟨?_, ?_, ?_⟩
  · intro hit hhit
    obtain ⟨h1, pre, post, heq, hpre⟩ := firstHit_eq_some hhit
    exact ⟨hi hit hhit, h1, pre, post, heq, hpre⟩
  · intro hnone
    exact ⟨firstHit_eq_none hnone, hii hnone⟩
  · intro c m hmode hall hfee hfi hmargin sellPx hsp
    subst hmode
    have hbc : buyPrice = c := hall (buyDate, buyPrice) (locAt_mem hbp)
    have hsc : sellPx = c := hall (sellDate, sellPx) (locAt_mem hsp)
    have hcpos : 0 < c := hbc ▸ hpos
    have hqpos : 0 < (inv - flatFee) / buyPrice := div_pos (by linarith) hpos
    have hraw : target_price_raw buyPrice inv g flatFee (1/200) .flat
        = (inv * (1 + g) + flatFee) / ((inv - flatFee) / buyPrice) := by
      simp only [target_price_raw, fee_buy, fee_sell]
      rw [if_pos hqpos]
    have htv : targetPx = roundTo 4 ((inv * (1 + g) + flatFee) / ((inv - flatFee) / buyPrice)) := by
      rw [compute_target, if_neg hpos.ne', hraw] at htp
      exact (Option.some_inj.mp htp).symm
    have hDne : inv - flatFee ≠ 0 := by linarith
    have hgap : (inv * (1 + g) + flatFee) / ((inv - flatFee) / buyPrice) - c
        = c * (inv * g + 2 * flatFee) / (inv - flatFee) := by
      rw [hbc]
      field_simp
      ring
    have hclt : c < targetPx := by
      have h1 := roundTo_le_add 4 ((inv * (1 + g) + flatFee) / ((inv - flatFee) / buyPrice))
      have h2 : (1:ℚ) / (2 * 10 ^ 4) = 1 / 20000 := by norm_num
      rw [h2] at h1
      rw [htv]
      linarith [hgap, hmargin]
    have hnone : firstHit targetPx (locSlice ts.pts buyDate sellDate) = none := by
      cases hfh : firstHit targetPx (locSlice ts.pts buyDate sellDate) with
      | none => rfl
      | some hit =>
        obtain ⟨h1, _, _, _, _⟩ := firstHit_eq_some hfh
        have hmemp : hit ∈ ts.pts := by
          have hx : hit ∈ locSlice ts.pts buyDate sellDate := by
            obtain ⟨_, pre, post, heq, _⟩ := firstHit_eq_some hfh
            rw [heq]
            exact List.mem_append_right pre (List.mem_cons_self hit post)
          exact (List.mem_filter.mp hx).1
        have : hit.2 = c := hall hit hmemp
        rw [this] at h1
        exact absurd (lt_of_lt_of_le hclt h1) (lt_irrefl c)
    have hrec := hii hnone sellPx hsp
    have hpnl : compute_net_gain buyPrice sellPx ((inv - flatFee) / buyPrice)
        flatFee (1/200) .flat = -(2 * flatFee) := by
      rw [compute_net_gain]
      have hin : (sellPx - buyPrice) * ((inv - flatFee) / buyPrice) - 2 * flatFee
          = -(2 * flatFee) := by
        rw [hbc, hsc]
        ring
      rw [hin]
      apply roundTo_eq_self 2 (-(2 * flatFee)) (-2 * m)
      rw [hfee]
      push_cast
      ring
    rw [hpnl] at hrec
    exact hrec

/-- Witness for C6 on a flat two-day series at 10 with the default
parameters: the trade exits at cycle end with P&L −2 × 1.99. -/
theorem simTrade_first_touch_witness :
    ((0:ℚ) < 10) ∧
    compute_target 10 100 (9/200) (199/100) (1/200) .flat = some (27163/2500) ∧
    (∀ q ∈ [((0:ℕ), (10:ℚ)), (1, 10)], q.2 = 10) ∧
    ((199:ℚ)/100 < 100) ∧
    ((1:ℚ)/20000 < 10 * (100 * (9/200) + 2 * (199/100)) / (100 - 199/100)) ∧
    simTrade [0, 1] 2 0 100 (9/200) (199/100) .flat ⟨"A", [(0, 10), (1, 10)]⟩
      = some ⟨0, 1, "A", roundTo 2 10, roundTo 2 (27163/2500), roundTo 2 10,
          -(2 * (199/100)), .arrete⟩ := by
  have htp : compute_target 10 100 (9/200) (199/100) (1/200) .flat
      = some (27163/2500) := by
    rw [compute_target, if_neg (by norm_num)]
    simp only [target_price_raw, fee_buy, fee_sell]
    norm_num
    rw [roundTo_eq_down 4 _ 108652 (by norm_num) (by norm_num)]
    norm_num
  have hall : ∀ q ∈ [((0:ℕ), (10:ℚ)), (1, 10)], q.2 = 10 := by
    intro q hq
    rcases List.mem_cons.mp hq with rfl | hq'
    · rfl
    · rcases List.mem_cons.mp hq' with rfl | hq''
      · rfl
      · exact absurd hq'' (List.not_mem_nil q)
  have h := simTrade_first_touch [0, 1] 2 0 100 (9/200) (199/100) .flat
    ⟨"A", [(0, 10), (1, 10)]⟩ 0 1 10 (27163/2500) rfl rfl rfl (by norm_num) htp
  refine ⟨by norm_num, htp, hall, by norm_num, by norm_num, ?_⟩
  exact h.2.2 10 199 rfl hall (by norm_num) (by norm_num) (by norm_num) 10 rfl

/-- C5: the "backtest conservation" property fails on the code.  In this
two-ticker, one-cycle run, ticker A (flat at 10) exits at cycle end (date
2) and ticker B hits its target early (date 1), but the equity points are
appended in universe order with a running cumulative P&L and only *then*
sorted by date — so the final point of the date-sorted equity curve
carries A's running total −3.98, while the trade log's net P&L sums to
90.05.  The final point of the equity curve does not equal the sum of the
trade log. -/
theorem backtest_equity_final_point_mismatch :
    (∃ s, run_backtest
        [⟨"A", [(0, 10), (1, 10), (2, 10), (3, 10)]⟩,
         ⟨"B", [(0, 10), (1, 20), (2, 20), (3, 20)]⟩]
        0 100 (9/200) (199/100) .flat 3
      = .ok [⟨0, 2, "A", 10, 1087/100, 10, -199/50, .arrete⟩,
             ⟨0, 1, "B", 10, 1087/100, 20, 9403/100, .objectifAtteint⟩]
        [(1, 1801/20), (2, -199/50)] s) ∧
    ([((1:ℕ), (1801:ℚ)/20), (2, -199/50)].getLast? = some (2, -199/50)) ∧
    (([(⟨0, 2, "A", 10, 1087/100, 10, -199/50, .arrete⟩ : TradeRec),
       ⟨0, 1, "B", 10, 1087/100, 20, 9403/100, .objectifAtteint⟩].map
        (fun tr => tr.pnlNet)).sum = 1801/20) ∧
    ((-199:ℚ)/50 ≠ 1801/20) := by
  have htp : compute_target 10 100 (9/200) (199/100) (1/200) .flat
      = some (27163/2500) := by
    rw [compute_target, if_neg (by norm_num)]
    simp only [target_price_raw, fee_buy, fee_sell]
    norm_num
    rw [roundTo_eq_down 4 _ 108652 (by norm_num) (by norm_num)]
    norm_num
  have hr10 : roundTo 2 (10:ℚ) = 10 := roundTo_eq_self 2 10 1000 (by norm_num)
  have hr20 : roundTo 2 (20:ℚ) = 20 := roundTo_eq_self 2 20 2000 (by norm_num)
  have hrT : roundTo 2 ((27163:ℚ)/2500) = 1087/100 := by
    rw [roundTo_eq_up 2 _ 1087 (by norm_num) (by norm_num)]
    norm_num
  -- ticker A: flat at 10, never touches the target, exits at cycle end
  have hfhA : firstHit ((27163:ℚ)/2500)
      (locSlice [((0:ℕ), (10:ℚ)), (1, 10), (2, 10), (3, 10)] 0 2) = none := by
    rw [show locSlice [((0:ℕ), (10:ℚ)), (1, 10), (2, 10), (3, 10)] 0 2
        = [(0, 10), (1, 10), (2, 10)] from by decide]
    simp only [firstHit]
    norm_num
  have hpnlA : compute_net_gain 10 10 ((100 - 199/100) / 10) (199/100) (1/200) .flat
      = -199/50 := by
    rw [compute_net_gain]
    norm_num
    rw [roundTo_eq_down 2 _ (-398) (by norm_num) (by norm_num)]
    norm_num
  have hA := simTrade_eval_stop [0, 1, 2, 3] 3 0 100 (9/200) (199/100) .flat
    ⟨"A", [(0, 10), (1, 10), (2, 10), (3, 10)]⟩ 0 2 10 (27163/2500) 10
    rfl rfl rfl (by norm_num) htp hfhA rfl
  rw [hr10, hrT, hpnlA] at hA
  -- ticker B: hits the target on date 1
  have hfhB : firstHit ((27163:ℚ)/2500)
      (locSlice [((0:ℕ), (10:ℚ)), (1, 20), (2, 20), (3, 20)] 0 2)
      = some (1, 20) := by
    rw [show locSlice [((0:ℕ), (10:ℚ)), (1, 20), (2, 20), (3, 20)] 0 2
        = [(0, 10), (1, 20), (2, 20)] from by decide]
    rw [firstHit, if_neg (by norm_num), firstHit, if_pos (by norm_num)]
  have hB := simTrade_eval_hit [0, 1, 2, 3] 3 0 100 (9/200) (199/100) .flat
    ⟨"B", [(0, 10), (1, 20), (2, 20), (3, 20)]⟩ 0 2 10 (27163/2500) (1, 20)
    rfl rfl rfl (by norm_num) htp hfhB
  have hpnlB : compute_net_gain 10 20 ((100 - 199/100) / 10) (199/100) (1/200) .flat
      = 9403/100 := by
    rw [compute_net_gain]
    norm_num
    rw [roundTo_eq_down 2 _ 9403 (by norm_num) (by norm_num)]
    norm_num
  rw [hr10, hr20, hrT, hpnlB] at hB
  -- assemble the run
  have hdatesEq : (commonDates
      [⟨"A", [(0, 10), (1, 10), (2, 10), (3, 10)]⟩,
       ⟨"B", [(0, 10), (1, 20), (2, 20), (3, 20)]⟩]).filter
      (fun d => decide (0 ≤ d)) = [0, 1, 2, 3] := by decide
  have hrt : runTrades
      [⟨"A", [(0, 10), (1, 10), (2, 10), (3, 10)]⟩,
       ⟨"B", [(0, 10), (1, 20), (2, 20), (3, 20)]⟩]
      [0, 1, 2, 3] 3 100 (9/200) (199/100) .flat
      = [⟨0, 2, "A", 10, 1087/100, 10, -199/50, .arrete⟩,
         ⟨0, 1, "B", 10, 1087/100, 20, 9403/100, .objectifAtteint⟩] := by
    rw [runTrades, show cycleStarts (([0, 1, 2, 3] : List ℕ).length) 3 = [0] from by decide]
    simp only [List.map_cons, List.map_nil, List.filterMap_cons, hA, hB,
      List.filterMap_nil, List.flatten]
    rfl
  have hep : equityPoints
      [⟨0, 2, "A", 10, 1087/100, 10, -199/50, .arrete⟩,
       ⟨0, 1, "B", 10, 1087/100, 20, 9403/100, .objectifAtteint⟩]
      = [(2, -199/50), (1, 1801/20)] := by
    rw [equityPoints]
    simp only [List.foldl_cons, List.foldl_nil, List.nil_append, List.cons_append]
    rw [show ((0:ℚ) + -199/50) = -199/50 from by norm_num,
      roundTo_eq_self 2 (-199/50 : ℚ) (-398) (by norm_num),
      show ((-199:ℚ)/50 + 9403/100) = 1801/20 from by norm_num,
      roundTo_eq_self 2 ((1801:ℚ)/20) 9005 (by norm_num)]
  have hsort : sortByDate [((2:ℕ), (-199:ℚ)/50), (1, 1801/20)]
      = [(1, 1801/20), (2, -199/50)] := by
    rw [sortByDate]
    simp only [List.foldr_cons, List.foldr_nil, insertPt]
    norm_num
  refine ⟨?_, by rfl, ?_, by norm_num⟩
  swap
  · simp only [List.map_cons, List.map_nil, List.sum_cons, List.sum_nil]
    norm_num
  rw [run_backtest]
  rw [show (List.isEmpty
      [(⟨"A", [(0, 10), (1, 10), (2, 10), (3, 10)]⟩ : TSeries),
       ⟨"B", [(0, 10), (1, 20), (2, 20), (3, 20)]⟩]) = false from rfl]
  simp only [Bool.false_eq_true, if_false]
  rw [hdatesEq]
  rw [if_neg (show ¬ ([0, 1, 2, 3] : List ℕ).length < 3 from by decide)]
  rw [hrt]
  rw [show (List.isEmpty
      [(⟨0, 2, "A", 10, 1087/100, 10, -199/50, .arrete⟩ : TradeRec),
       ⟨0, 1, "B", 10, 1087/100, 20, 9403/100, .objectifAtteint⟩]) = false from rfl]
  simp only [Bool.false_eq_true, if_false]
  rw [hep, hsort]
  exact ⟨_, rfl⟩
